import Mathlib

/-!
Shallow embedding of the fan-speed decision engine of `main.go`
(nvidia-fan-control): the step-lookup policy, the curve-profile builder,
the curve speed lookup, the AUTO/MANUAL mode state machine, the per-tick
update, and the CLI argument validation paths.

Go `int` is modelled as `Int`.  Go's `sort.SliceStable` is modelled by
`List.insertionSort`, which is a stable sort (for a total preorder a stable
sort is unique, so this is the faithful rendering).  The float64
interpolation `math.Round(a.speed + t*(b.speed-a.speed))` is modelled by
exact rational arithmetic over the integer numerator and denominator, with
round-half-away-from-zero (the semantics of `math.Round`).
-/

namespace NvidiaFanControl

/-- `TemperatureRange` from main.go: one configured temperature band. -/
structure TemperatureRange where
  minTemperature : Int
  maxTemperature : Int
  fanSpeed : Int
  hysteresis : Int
deriving DecidableEq

/-- `abs` from main.go (integer absolute value). -/
def intAbs (x : Int) : Int :=
  if x < 0 then -x else x

/-- `getFanSpeedForTemperature` from main.go: scan the ranges in order; the
first range with `minTemp < temp <= maxTemp` decides; within it the speed
changes only when `abs(temp-prevTemp) >= hysteresis` or the previous speed
differs from the range's speed; with no match the previous speed is kept. -/
def getFanSpeedForTemperature (temp prevTemp prevSpeed : Int) :
    List TemperatureRange → Int
  | [] => prevSpeed
  | r :: rest =>
    if r.minTemperature < temp ∧ temp ≤ r.maxTemperature then
      if r.hysteresis ≤ intAbs (temp - prevTemp) ∨ prevSpeed ≠ r.fanSpeed then
        r.fanSpeed
      else
        prevSpeed
    else
      getFanSpeedForTemperature temp prevTemp prevSpeed rest

/-- `curvePoint` from main.go. -/
structure curvePoint where
  temp : Int
  speed : Int
  hyst : Int
deriving DecidableEq

/-- `curveProfile` from main.go. -/
structure curveProfile where
  floorEndTemp : Int
  floorSpeed : Int
  floorHyst : Int
  points : List curvePoint
deriving DecidableEq

/-- `clampInt` from main.go. -/
def clampInt (x lo hi : Int) : Int :=
  if x < lo then lo
  else if hi < x then hi
  else x

/-- The comparison used by `sort.SliceStable` in `buildCurveProfileFromRanges`:
ascending by `(MinTemperature, MaxTemperature)` lexicographically.  Stated as
the non-strict "may come first" relation, which is what a stable sort is
determined by. -/
def rangeLe (a b : TemperatureRange) : Prop :=
  a.minTemperature < b.minTemperature ∨
    (a.minTemperature = b.minTemperature ∧ a.maxTemperature ≤ b.maxTemperature)

instance : DecidableRel rangeLe := fun a b =>
  inferInstanceAs (Decidable (a.minTemperature < b.minTemperature ∨
    (a.minTemperature = b.minTemperature ∧ a.maxTemperature ≤ b.maxTemperature)))

instance : IsTotal TemperatureRange rangeLe :=
  ⟨fun a b => by unfold rangeLe; omega⟩

instance : IsTrans TemperatureRange rangeLe :=
  ⟨fun a b c hab hbc => by unfold rangeLe at *; omega⟩

/-- The comparison used by the second `sort.SliceStable`: ascending by temp. -/
def pointLe (a b : curvePoint) : Prop :=
  a.temp ≤ b.temp

instance : DecidableRel pointLe := fun a b =>
  inferInstanceAs (Decidable (a.temp ≤ b.temp))

instance : IsTotal curvePoint pointLe :=
  ⟨fun a b => by unfold pointLe; omega⟩

instance : IsTrans curvePoint pointLe :=
  ⟨fun a b c hab hbc => by unfold pointLe at *; omega⟩

/-- One iteration of the dedup loop in `buildCurveProfileFromRanges`:
append `p`, except that when the last retained point has the same temp it is
replaced by `p`. -/
def goDedupStep (dedup : List curvePoint) (p : curvePoint) : List curvePoint :=
  match dedup.getLast? with
  | none => dedup ++ [p]
  | some q => if q.temp = p.temp then dedup.dropLast ++ [p] else dedup ++ [p]

/-- The dedup loop of `buildCurveProfileFromRanges` (lines 254-265 of
main.go), literally: fold the step over the points. -/
def goDedup (pts : List curvePoint) : List curvePoint :=
  pts.foldl goDedupStep []

/-- Deduplication as the spec words it: of each run of adjacent equal-temp
points keep the last occurrence.  (A point is kept iff the next point has a
different temp.) -/
def dedupKeepLast : List curvePoint → List curvePoint
  | [] => []
  | [p] => [p]
  | p :: q :: rest =>
    if p.temp = q.temp then dedupKeepLast (q :: rest)
    else p :: dedupKeepLast (q :: rest)

/-- The curve point contributed by a non-floor range. -/
def rangeToPoint (r : TemperatureRange) : curvePoint :=
  { temp := r.minTemperature
    speed := clampInt r.fanSpeed 0 100
    hyst := r.hysteresis }

/-- `buildCurveProfileFromRanges` from main.go: error (`none`) on an empty
list; otherwise stable-sort by `(minTemp, maxTemp)`, take the first range as
the floor, turn the remaining ranges into setpoints, stable-sort them by
temp, and deduplicate with the last-wins loop. -/
def buildCurveProfileFromRanges (ranges : List TemperatureRange) :
    Option curveProfile :=
  if ranges.isEmpty then none
  else
    match List.insertionSort rangeLe ranges with
    | [] => none
    | floor :: rest =>
      some { floorEndTemp := floor.maxTemperature
             floorSpeed := clampInt floor.fanSpeed 0 100
             floorHyst := floor.hysteresis
             points := goDedup (List.insertionSort pointLe (rest.map rangeToPoint)) }

/-- Modelled from the spec's words in section 4.3, for comparison with the
code: stable-sort the ranges ascending by `(minTemp, maxTemp)`; the first
element is the floor range; every remaining range becomes a setpoint at its
min temperature with clamped speed; stable-sort the setpoints ascending by
temp and deduplicate equal-temp points keeping the last occurrence. -/
def specBuildCurveProfile (ranges : List TemperatureRange) :
    Option curveProfile :=
  match List.insertionSort rangeLe ranges with
  | [] => none
  | floor :: rest =>
    some { floorEndTemp := floor.maxTemperature
           floorSpeed := clampInt floor.fanSpeed 0 100
           floorHyst := floor.hysteresis
           points := dedupKeepLast (List.insertionSort pointLe (rest.map rangeToPoint)) }

/-- Round half away from zero of the exact rational `n / d` (for `d > 0`):
the value Go's `math.Round` produces on that quantity. -/
def roundHalfAway (n d : Int) : Int :=
  if 0 ≤ n then (2 * n + d) / (2 * d)
  else -((2 * (-n) + d) / (2 * d))

/-- The interpolated speed of spec rule 4.4.4 between setpoints `a` and `b`:
`round(a.speed + (temp - a.temp)/(b.temp - a.temp) * (b.speed - a.speed))`,
clamped to `[0,100]`; computed on the exact rational with common denominator
`b.temp - a.temp`. -/
def interpSpecFormula (temp : Int) (a b : curvePoint) : Int :=
  clampInt
    (roundHalfAway (a.speed * (b.temp - a.temp) + (temp - a.temp) * (b.speed - a.speed))
      (b.temp - a.temp))
    0 100

/-- The body of the interpolation loop of `curveSpeedForTempWithProfile`
once the matching segment is found: the `den <= 0` guard, then the rounded
and clamped linear interpolation. -/
def interpSegment (temp : Int) (a b : curvePoint) : Int × Int :=
  if b.temp - a.temp ≤ 0 then (a.speed, a.hyst)
  else (interpSpecFormula temp a b, a.hyst)

/-- The adjacent pairs `(points[i], points[i+1])` scanned by the
interpolation loop. -/
def adjPairs : List curvePoint → List (curvePoint × curvePoint)
  | a :: b :: rest => (a, b) :: adjPairs (b :: rest)
  | _ => []

/-- The loop of lines 297-311 of main.go: the first adjacent pair with
`a.temp <= temp < b.temp`. -/
def findSegment (temp : Int) (pts : List curvePoint) :
    Option (curvePoint × curvePoint) :=
  (adjPairs pts).find? fun ab => decide (ab.1.temp ≤ temp ∧ temp < ab.2.temp)

/-- `curveSpeedForTempWithProfile` from main.go.  Returns
`(speed, hysteresisUsed)`. -/
def curveSpeedForTempWithProfile (temp : Int) (prof : curveProfile) :
    Int × Int :=
  if temp < prof.floorEndTemp then (prof.floorSpeed, prof.floorHyst)
  else
    match prof.points with
    | [] => (prof.floorSpeed, prof.floorHyst)
    | first :: rest =>
      if temp < first.temp then (prof.floorSpeed, prof.floorHyst)
      else
        let lastp := (first :: rest).getLast (by simp)
        if lastp.temp ≤ temp then (lastp.speed, lastp.hyst)
        else
          match findSegment temp (first :: rest) with
          | some ab => interpSegment temp ab.1 ab.2
          | none => (lastp.speed, lastp.hyst)

/-- Modelled from the spec's words in section 4.4, for comparison with the
code: the four priority rules of `speedAt(temp, profile)`.  Rule 4 picks the
adjacent pair with `a.temp <= temp < b.temp` (unique when the setpoints are
strictly increasing) and applies the rounded clamped interpolation with no
guard; when no such pair exists the rules assign no value, rendered here as
the floor answer. -/
def speedAtSpec (temp : Int) (prof : curveProfile) : Int × Int :=
  if temp < prof.floorEndTemp then (prof.floorSpeed, prof.floorHyst)
  else
    match prof.points with
    | [] => (prof.floorSpeed, prof.floorHyst)
    | first :: rest =>
      if temp < first.temp then (prof.floorSpeed, prof.floorHyst)
      else
        let lastp := (first :: rest).getLast (by simp)
        if lastp.temp ≤ temp then (lastp.speed, lastp.hyst)
        else
          match findSegment temp (first :: rest) with
          | some ab => (interpSpecFormula temp ab.1 ab.2, ab.1.hyst)
          | none => (prof.floorSpeed, prof.floorHyst)

/-- The example range table of spec section 8 (also the README's config). -/
def specExampleRanges : List TemperatureRange :=
  [⟨0, 40, 30, 3⟩, ⟨40, 60, 40, 3⟩, ⟨60, 80, 70, 3⟩, ⟨80, 100, 100, 3⟩,
   ⟨100, 200, 100, 0⟩]

/-- The curve profile the builder produces from the spec section 8 ranges. -/
def specExampleProfile : curveProfile :=
  (buildCurveProfileFromRanges specExampleRanges).getD ⟨0, 0, 0, []⟩

/-- The initial mode choice of `runMonitoringLoop` (line 341 of main.go):
`inAuto = (initial temp < floorEndTemp)`. -/
def initialInAuto (initialTemp floorEndTemp : Int) : Bool :=
  decide (initialTemp < floorEndTemp)

/-- The AUTO/MANUAL deadband decision of `runMonitoringLoop` (lines 374-384
of main.go): leave AUTO only when `temp >= floorEndTemp + floorHyst`; enter
AUTO only when `temp <= floorEndTemp - floorHyst`. -/
def modeStep (inAuto : Bool) (temp floorEndTemp floorHyst : Int) : Bool :=
  if inAuto then
    if floorEndTemp + floorHyst ≤ temp then false else true
  else
    if temp ≤ floorEndTemp - floorHyst then true else false

/-- A hardware write issued by one tick of the monitoring loop. -/
inductive HWWrite where
  | policyAuto (fan : Nat)
  | policyManual (fan : Nat)
  | fanSpeed (fan : Nat) (pct : Int)
deriving DecidableEq

/-- The per-device mutable state of the monitoring loop: `inAuto[i]`,
`prevTemps[i]`, `prevFanSpeeds[i]`, `lastFanChangeTemp[i]`. -/
structure DeviceState where
  inAuto : Bool
  prevTemp : Int
  fanSpeeds : List Int
  lastChangeTemp : Int
deriving DecidableEq

/-- The MANUAL-branch fan loop of `runMonitoringLoop` (lines 408-442 of
main.go), assuming the hardware calls succeed.  Returns the updated
per-fan speeds, the writes issued, and the `anyFanUpdated` flag. -/
def curveManualFans (prof : curveProfile) (temp lastChange : Int)
    (fanIdx : Nat) : List Int → List Int × List HWWrite × Bool
  | [] => ([], [], false)
  | prevSpeed :: rest =>
    let r := curveManualFans prof temp lastChange (fanIdx + 1) rest
    let target := (curveSpeedForTempWithProfile temp prof).1
    let hyst := (curveSpeedForTempWithProfile temp prof).2
    if target = prevSpeed then (prevSpeed :: r.1, r.2.1, r.2.2)
    else if intAbs (temp - lastChange) < hyst then (prevSpeed :: r.1, r.2.1, r.2.2)
    else (target :: r.1,
          HWWrite.policyManual fanIdx :: HWWrite.fanSpeed fanIdx target :: r.2.1,
          true)

/-- One curve-mode tick for one device (lines 370-448 of main.go), assuming
the hardware calls succeed: decide the mode through the deadband, then
either issue the AUTO policy write for every fan and reset the change
reference, or run the MANUAL fan loop. -/
def curveTick (prof : curveProfile) (st : DeviceState) (temp : Int) :
    DeviceState × List HWWrite :=
  let auto' := modeStep st.inAuto temp prof.floorEndTemp prof.floorHyst
  if auto' then
    ({ st with inAuto := true, prevTemp := temp, lastChangeTemp := temp },
     (List.range st.fanSpeeds.length).map HWWrite.policyAuto)
  else
    let r := curveManualFans prof temp st.lastChangeTemp 0 st.fanSpeeds
    ({ inAuto := false
       prevTemp := temp
       fanSpeeds := r.1
       lastChangeTemp := if r.2.2 then temp else st.lastChangeTemp },
     r.2.1)

/-- The step-mode fan loop of `runMonitoringLoop` (lines 452-478 of
main.go), assuming the hardware calls succeed. -/
def stepFans (ranges : List TemperatureRange) (temp prevTemp : Int)
    (fanIdx : Nat) : List Int → List Int × List HWWrite
  | [] => ([], [])
  | prevSpeed :: rest =>
    let r := stepFans ranges temp prevTemp (fanIdx + 1) rest
    let newSpeed := getFanSpeedForTemperature temp prevTemp prevSpeed ranges
    if newSpeed = prevSpeed then (prevSpeed :: r.1, r.2)
    else (newSpeed :: r.1,
          HWWrite.policyManual fanIdx :: HWWrite.fanSpeed fanIdx newSpeed :: r.2)

/-- One step-mode tick for one device (lines 452-479 of main.go), assuming
the hardware calls succeed. -/
def stepTick (ranges : List TemperatureRange) (st : DeviceState)
    (temp : Int) : DeviceState × List HWWrite :=
  let r := stepFans ranges temp st.prevTemp 0 st.fanSpeeds
  ({ st with prevTemp := temp, fanSpeeds := r.1 }, r.2)

/-- The config fields relevant to the decision engine. -/
structure Config where
  timeToUpdate : Int
  temperatureRanges : List TemperatureRange
  curve : Bool
deriving DecidableEq

/-- The policy the monitoring loop runs with. -/
inductive RunPolicy where
  | step
  | curveMode (prof : curveProfile)
deriving DecidableEq

/-- The policy-selection prologue of `runMonitoringLoop` (lines 320-336 of
main.go): curve mode only when requested and the profile builds; on a build
failure a warning is logged and the loop falls back to step mode.  The
function is total: this phase cannot abort the daemon. -/
def monitoringPolicy (config : Config) : RunPolicy :=
  if config.curve then
    match buildCurveProfileFromRanges config.temperatureRanges with
    | some prof => RunPolicy.curveMode prof
    | none => RunPolicy.step
  else RunPolicy.step

/-- The `time_to_update` validation of `loadConfiguration` (lines 79-86 of
main.go); an empty range list only logs a warning, so the function is total
and keeps the ranges as given. -/
def validateConfiguration (config : Config) : Config :=
  { config with
    timeToUpdate := if config.timeToUpdate ≤ 0 then 5 else config.timeToUpdate }

/-- The subcommands `main` dispatches on (lines 789-851 of main.go); any
other first argument prints the usage text and exits 2. -/
inductive CliCommand where
  | daemonCmd
  | statusCmd
  | setCmd
  | autoCmd
  | usage
deriving DecidableEq

/-- The `switch os.Args[1]` of `main`. -/
def dispatchSubcommand : String → CliCommand
  | "daemon" => CliCommand.daemonCmd
  | "status" => CliCommand.statusCmd
  | "set" => CliCommand.setCmd
  | "auto" => CliCommand.autoCmd
  | _ => CliCommand.usage

/-- Outcome of the `set` command's speed validation: the usage check in
`main` (exit 2), the range check at the top of `cmdSet` (return 1, so exit
1), or proceeding to the hardware calls (`initializeNVML` onwards). -/
inductive SetOutcome where
  | usageErrorExit2
  | speedRejectedExit1
  | proceed (speed : Int)
deriving DecidableEq

/-- The speed check at the top of `cmdSet` (lines 621-624 of main.go),
reached before `initializeNVML`: reject unless `0 <= speed <= 100`. -/
def cmdSetSpeedCheck (speed : Int) : SetOutcome :=
  if speed < 0 ∨ 100 < speed then SetOutcome.speedRejectedExit1
  else SetOutcome.proceed speed

/-- The `set` path of `main` (lines 821-830 of main.go): `-speed < 0`
(including the unset default `-1`) exits 2 before `cmdSet`; otherwise
`cmdSet` validates the speed before touching hardware. -/
def mainSetSpeed (speed : Int) : SetOutcome :=
  if speed < 0 then SetOutcome.usageErrorExit2
  else cmdSetSpeedCheck speed

/-- The process exit code each `set` validation outcome produces
(`os.Exit(2)` in `main`; `os.Exit(cmdSet(...))` with return value 1). -/
def setExitCode : SetOutcome → Int
  | SetOutcome.usageErrorExit2 => 2
  | SetOutcome.speedRejectedExit1 => 1
  | SetOutcome.proceed _ => 0

/-- Executable strict monotonicity of the setpoint temperatures. -/
def tempsStrictMono : List curvePoint → Bool
  | [] => true
  | [_] => true
  | p :: q :: rest => decide (p.temp < q.temp) && tempsStrictMono (q :: rest)

/-- Executable (non-strict) monotonicity of the setpoint temperatures. -/
def tempsMono : List curvePoint → Bool
  | [] => true
  | [_] => true
  | p :: q :: rest => decide (p.temp ≤ q.temp) && tempsMono (q :: rest)

/-! ## Theorems -/

theorem stepFans_no_change (ranges : List TemperatureRange) (temp prevTemp : Int) :
    ∀ (fanIdx : Nat) (speeds : List Int),
      (∀ s ∈ speeds, getFanSpeedForTemperature temp prevTemp s ranges = s) →
      stepFans ranges temp prevTemp fanIdx speeds = (speeds, []) := by
  intro fanIdx speeds
  induction speeds generalizing fanIdx with
  | nil => intro _; rfl
  | cons s rest ih =>
    intro h
    have hs : getFanSpeedForTemperature temp prevTemp s ranges = s :=
      h s (List.mem_cons_self s rest)
    have hrest := ih (fanIdx + 1) fun x hx => h x (List.mem_cons_of_mem s hx)
    simp [stepFans, hrest, hs]

theorem curveManualFans_no_change (prof : curveProfile) (temp lastChange : Int) :
    ∀ (fanIdx : Nat) (speeds : List Int),
      (∀ s ∈ speeds, (curveSpeedForTempWithProfile temp prof).1 = s) →
      curveManualFans prof temp lastChange fanIdx speeds = (speeds, [], false) := by
  intro fanIdx speeds
  induction speeds generalizing fanIdx with
  | nil => intro _; rfl
  | cons s rest ih =>
    intro h
    have hs : (curveSpeedForTempWithProfile temp prof).1 = s :=
      h s (List.mem_cons_self s rest)
    have hrest := ih (fanIdx + 1) fun x hx => h x (List.mem_cons_of_mem s hx)
    simp [curveManualFans, hrest, hs]

theorem goDedup_aux (l : List curvePoint) :
    ∀ (acc : List curvePoint) (q : curvePoint),
      List.foldl goDedupStep (acc ++ [q]) l = acc ++ dedupKeepLast (q :: l) := by
  induction l with
  | nil => intro acc q; simp [dedupKeepLast]
  | cons p rest ih =>
    intro acc q
    have hstep : goDedupStep (acc ++ [q]) p =
        if q.temp = p.temp then acc ++ [p] else (acc ++ [q]) ++ [p] := by
      unfold goDedupStep
      rw [List.getLast?_concat]
      by_cases hq : q.temp = p.temp
      · simp [hq]
      · simp [hq]
    by_cases hq : q.temp = p.temp
    · rw [List.foldl_cons, hstep, if_pos hq, ih acc p]
      simp [dedupKeepLast, hq]
    · rw [List.foldl_cons, hstep, if_neg hq, ih (acc ++ [q]) p]
      simp [dedupKeepLast, hq]

theorem goDedup_eq_dedupKeepLast : ∀ l : List curvePoint,
    goDedup l = dedupKeepLast l := by
  intro l
  cases l with
  | nil => rfl
  | cons q rest =>
    unfold goDedup
    rw [List.foldl_cons]
    have h0 : goDedupStep [] q = [] ++ [q] := rfl
    rw [h0, goDedup_aux rest [] q]
    rfl

theorem build_profile_case {ranges : List TemperatureRange} {prof : curveProfile}
    (hb : buildCurveProfileFromRanges ranges = some prof) :
    ∃ floor rest, List.insertionSort rangeLe ranges = floor :: rest ∧
      prof = { floorEndTemp := floor.maxTemperature
               floorSpeed := clampInt floor.fanSpeed 0 100
               floorHyst := floor.hysteresis
               points := dedupKeepLast
                 (List.insertionSort pointLe (rest.map rangeToPoint)) } := by
  unfold buildCurveProfileFromRanges at hb
  by_cases he : ranges.isEmpty
  · rw [if_pos he] at hb; exact absurd hb (by simp)
  · rw [if_neg he] at hb
    cases hs : List.insertionSort rangeLe ranges with
    | nil => rw [hs] at hb; exact absurd hb (by simp)
    | cons floor rest =>
      rw [hs] at hb
      refine ⟨floor, rest, rfl, ?_⟩
      have := Option.some.inj hb
      rw [← this, goDedup_eq_dedupKeepLast]

theorem sorted_pointLe_tempsMono : ∀ l : List curvePoint,
    List.Sorted pointLe l → tempsMono l = true := by
  intro l
  induction l with
  | nil => intro _; rfl
  | cons p rest ih =>
    intro hsort
    cases rest with
    | nil => rfl
    | cons q rest' =>
      have hpq : pointLe p q :=
        List.rel_of_sorted_cons hsort q (List.mem_cons_self q rest')
      have htail := ih hsort.of_cons
      unfold tempsMono
      rw [htail]
      unfold pointLe at hpq
      simp [hpq]

theorem dedupKeepLast_head : ∀ (l : List curvePoint) (p : curvePoint),
    ∃ h t, dedupKeepLast (p :: l) = h :: t ∧ p.temp ≤ h.temp := by
  intro l
  induction l with
  | nil => intro p; exact ⟨p, [], rfl, le_refl _⟩
  | cons q rest ih =>
    intro p
    by_cases hq : p.temp = q.temp
    · obtain ⟨h, t, heq, hle⟩ := ih q
      exact ⟨h, t, by simp [dedupKeepLast, hq, heq], by omega⟩
    · obtain ⟨h, t, heq, hle⟩ := ih q
      exact ⟨p, dedupKeepLast (q :: rest), by simp [dedupKeepLast, hq], le_refl _⟩

theorem tempsMono_dedupKeepLast : ∀ l : List curvePoint,
    tempsMono l = true → tempsStrictMono (dedupKeepLast l) = true := by
  intro l
  induction l with
  | nil => intro _; rfl
  | cons p rest ih =>
    intro hmono
    cases rest with
    | nil => rfl
    | cons q rest' =>
      have hpq : p.temp ≤ q.temp := by
        unfold tempsMono at hmono
        simpa using And.left (by simpa using hmono)
      have htail : tempsMono (q :: rest') = true := by
        unfold tempsMono at hmono
        simpa using And.right (by simpa using hmono)
      by_cases hq : p.temp = q.temp
      · rw [show dedupKeepLast (p :: q :: rest') = dedupKeepLast (q :: rest') by
          simp [dedupKeepLast, hq]]
        exact ih htail
      · rw [show dedupKeepLast (p :: q :: rest') = p :: dedupKeepLast (q :: rest') by
          simp [dedupKeepLast, hq]]
        obtain ⟨h, t, heq, hle⟩ := dedupKeepLast_head rest' q
        have hstrict := ih htail
        rw [heq] at hstrict ⊢
        unfold tempsStrictMono
        rw [hstrict]
        have : p.temp < h.temp := by omega
        simp [this]

theorem mem_dedupKeepLast : ∀ {l : List curvePoint} {p : curvePoint},
    p ∈ dedupKeepLast l → p ∈ l := by
  intro l
  induction l with
  | nil => intro p hp; exact absurd hp (by simp [dedupKeepLast])
  | cons q rest ih =>
    intro p hp
    cases rest with
    | nil => simpa [dedupKeepLast] using hp
    | cons q' rest' =>
      by_cases hq : q.temp = q'.temp
      · rw [show dedupKeepLast (q :: q' :: rest') = dedupKeepLast (q' :: rest') by
          simp [dedupKeepLast, hq]] at hp
        exact List.mem_cons_of_mem q (ih hp)
      · rw [show dedupKeepLast (q :: q' :: rest') = q :: dedupKeepLast (q' :: rest') by
          simp [dedupKeepLast, hq]] at hp
        rcases List.mem_cons.mp hp with h | h
        · exact h ▸ List.mem_cons_self q _
        · exact List.mem_cons_of_mem q (ih h)

theorem build_points_strict {ranges : List TemperatureRange} {prof : curveProfile}
    (hb : buildCurveProfileFromRanges ranges = some prof) :
    tempsStrictMono prof.points = true := by
  obtain ⟨floor, rest, -, hprof⟩ := build_profile_case hb
  rw [hprof]
  exact tempsMono_dedupKeepLast _
    (sorted_pointLe_tempsMono _ (List.sorted_insertionSort pointLe _))

theorem build_points_speed_mem {ranges : List TemperatureRange} {prof : curveProfile}
    (hb : buildCurveProfileFromRanges ranges = some prof) :
    ∀ p ∈ prof.points, 0 ≤ p.speed ∧ p.speed ≤ 100 := by
  obtain ⟨floor, rest, -, hprof⟩ := build_profile_case hb
  intro p hp
  rw [hprof] at hp
  have hp' := mem_dedupKeepLast hp
  have hp'' := (List.mem_insertionSort pointLe).mp hp'
  rcases List.mem_map.mp hp'' with ⟨r, -, hr⟩
  rw [← hr]
  unfold rangeToPoint clampInt
  constructor <;> (dsimp only; split <;> omega)

theorem adjPairs_fst_snd_mem : ∀ {pts : List curvePoint}
    {ab : curvePoint × curvePoint},
    ab ∈ adjPairs pts → ab.1 ∈ pts ∧ ab.2 ∈ pts := by
  intro pts
  induction pts with
  | nil => intro ab h; exact absurd h (by simp [adjPairs])
  | cons a rest ih =>
    intro ab h
    cases rest with
    | nil => exact absurd h (by simp [adjPairs])
    | cons b rest' =>
      rw [show adjPairs (a :: b :: rest') = (a, b) :: adjPairs (b :: rest') from rfl]
        at h
      rcases List.mem_cons.mp h with h | h
      · rw [h]
        exact ⟨List.mem_cons_self _ _, List.mem_cons_of_mem _ (List.mem_cons_self _ _)⟩
      · obtain ⟨h1, h2⟩ := ih h
        exact ⟨List.mem_cons_of_mem _ h1, List.mem_cons_of_mem _ h2⟩

theorem adjPairs_strict : ∀ {pts : List curvePoint}
    {ab : curvePoint × curvePoint},
    tempsStrictMono pts = true → ab ∈ adjPairs pts → ab.1.temp < ab.2.temp := by
  intro pts
  induction pts with
  | nil => intro ab _ h; exact absurd h (by simp [adjPairs])
  | cons a rest ih =>
    intro ab hs h
    cases rest with
    | nil => exact absurd h (by simp [adjPairs])
    | cons b rest' =>
      have hab : a.temp < b.temp := by
        unfold tempsStrictMono at hs
        simpa using And.left (by simpa using hs)
      have htail : tempsStrictMono (b :: rest') = true := by
        unfold tempsStrictMono at hs
        simpa using And.right (by simpa using hs)
      rw [show adjPairs (a :: b :: rest') = (a, b) :: adjPairs (b :: rest') from rfl]
        at h
      rcases List.mem_cons.mp h with h | h
      · rw [h]; exact hab
      · exact ih htail h

theorem findSegment_exists (temp : Int) : ∀ (l : List curvePoint) (a : curvePoint),
    tempsStrictMono (a :: l) = true → a.temp ≤ temp →
    temp < ((a :: l).getLast (List.cons_ne_nil a l)).temp →
    (findSegment temp (a :: l)).isSome = true := by
  intro l
  induction l with
  | nil =>
    intro a _ hle hlt
    rw [List.getLast_singleton] at hlt
    omega
  | cons b rest ih =>
    intro a hs hle hlt
    have htail : tempsStrictMono (b :: rest) = true := by
      unfold tempsStrictMono at hs
      simpa using And.right (by simpa using hs)
    rw [List.getLast_cons (List.cons_ne_nil b rest)] at hlt
    by_cases hb : temp < b.temp
    · unfold findSegment
      rw [show adjPairs (a :: b :: rest) = (a, b) :: adjPairs (b :: rest) from rfl]
      rw [List.find?_cons_of_pos _ (by simp; omega)]
      rfl
    · unfold findSegment
      rw [show adjPairs (a :: b :: rest) = (a, b) :: adjPairs (b :: rest) from rfl]
      rw [List.find?_cons_of_neg _ (by simp; omega)]
      exact ih b htail (by omega) hlt

/-- C4: `getFanSpeedForTemperature` is decided by the first range (in the
given order) with `minTemp < temp <= maxTemp`: with such a match it returns
the range's fan speed exactly when `|temp - prevTemp| >= hysteresis` or the
previous speed differs, else the previous speed; with no match it returns
the previous speed unmodified. -/
theorem step_policy_first_match (temp prevTemp prevSpeed : Int)
    (ranges : List TemperatureRange) :
    getFanSpeedForTemperature temp prevTemp prevSpeed ranges =
      match ranges.find? fun r =>
          decide (r.minTemperature < temp ∧ temp ≤ r.maxTemperature) with
      | none => prevSpeed
      | some r =>
        if r.hysteresis ≤ intAbs (temp - prevTemp) ∨ prevSpeed ≠ r.fanSpeed then
          r.fanSpeed
        else prevSpeed := by
  induction ranges with
  | nil => rfl
  | cons r rest ih =>
    by_cases h : r.minTemperature < temp ∧ temp ≤ r.maxTemperature
    · simp [getFanSpeedForTemperature, List.find?_cons_of_pos, h]
    · simp only [getFanSpeedForTemperature, if_neg h, ih]
      rw [List.find?_cons_of_neg]
      simpa using h

/-- C3: the AUTO/MANUAL mode machine of the monitoring loop.  The initial
state is AUTO iff the initial temperature is strictly below `floorEndTemp`;
from AUTO the mode becomes MANUAL iff `temp >= floorEndTemp + floorHyst`;
from MANUAL it becomes AUTO iff `temp <= floorEndTemp - floorHyst`
(otherwise it is unchanged); and the spec's concrete transitions at
`floorEndTemp = 40`, `floorHysteresis = 3` hold. -/
theorem mode_machine_spec :
    (∀ t fe : Int, initialInAuto t fe = true ↔ t < fe) ∧
    (∀ t fe h : Int, modeStep true t fe h = false ↔ fe + h ≤ t) ∧
    (∀ t fe h : Int, modeStep false t fe h = true ↔ t ≤ fe - h) ∧
    (modeStep true 42 40 3 = true ∧ modeStep true 43 40 3 = false ∧
     modeStep false 38 40 3 = false ∧ modeStep false 37 40 3 = true) := by
  refine ⟨fun t fe => by simp [initialInAuto], fun t fe h => ?_,
    fun t fe h => ?_, by decide⟩ <;>
      · unfold modeStep
        split <;> simp_all

/-- C5: the repository documents a `gamemode` CLI subcommand and a latch
that keeps MANUAL sticky, but `main`'s switch has no such case — the
argument `gamemode` falls through to the usage/exit-2 default — and the
monitoring loop carries no latch: a MANUAL device at
`temp <= floorEndTemp - floorHysteresis` always reverts to AUTO (shown at
temp 37 with the spec example profile, floor 40, hysteresis 3). -/
theorem gamemode_not_implemented :
    dispatchSubcommand "gamemode" = CliCommand.usage ∧
    dispatchSubcommand "daemon" = CliCommand.daemonCmd ∧
    dispatchSubcommand "status" = CliCommand.statusCmd ∧
    dispatchSubcommand "set" = CliCommand.setCmd ∧
    dispatchSubcommand "auto" = CliCommand.autoCmd ∧
    ((curveTick specExampleProfile ⟨false, 38, [40], 38⟩ 37).1).inAuto = true := by
  exact ⟨rfl, rfl, rfl, rfl, rfl, by decide⟩

/-- C7 counterexample: `set -speed 150` is rejected by `cmdSet`'s
validation (before any hardware call), but the process exit code is 1, not
2 as the claim states. -/
theorem set_speed_over_100_exit_code :
    mainSetSpeed 150 = SetOutcome.speedRejectedExit1 ∧
    setExitCode (mainSetSpeed 150) = 1 ∧
    ¬ setExitCode (mainSetSpeed 150) = 2 := by
  decide

/-- C7 amended: every `-speed` outside `[0,100]` is rejected before any
hardware call; a negative speed exits with code 2 (usage check in `main`),
a speed above 100 exits with code 1 (`cmdSet`'s validation). -/
theorem set_speed_out_of_range_rejected (speed : Int)
    (h : speed < 0 ∨ 100 < speed) :
    (∀ s, mainSetSpeed speed ≠ SetOutcome.proceed s) ∧
    setExitCode (mainSetSpeed speed) = if speed < 0 then 2 else 1 := by
  unfold mainSetSpeed cmdSetSpeedCheck
  rcases h with h | h
  · simp [h, setExitCode]
  · have h0 : ¬ speed < 0 := by omega
    simp [h0, h, setExitCode]

theorem set_speed_out_of_range_rejected_witness :
    mainSetSpeed 150 ≠ SetOutcome.proceed 150 ∧
    setExitCode (mainSetSpeed 150) = if (150 : Int) < 0 then 2 else 1 :=
  ⟨(set_speed_out_of_range_rejected 150 (by decide)).1 150,
   (set_speed_out_of_range_rejected 150 (by decide)).2⟩

/-- C8: when curve mode is requested with an empty `temperature_ranges`
list, the profile builder fails (`none`, the logged warning) and the
monitoring loop falls back to the step policy; policy selection is a total
function, so the loop still starts. -/
theorem empty_ranges_curve_falls_back (cfg : Config)
    (hc : cfg.curve = true) (hr : cfg.temperatureRanges = []) :
    buildCurveProfileFromRanges cfg.temperatureRanges = none ∧
    monitoringPolicy cfg = RunPolicy.step := by
  have hb : buildCurveProfileFromRanges cfg.temperatureRanges = none := by
    rw [hr]; rfl
  refine ⟨hb, ?_⟩
  unfold monitoringPolicy
  rw [hc, hb]
  rfl

theorem empty_ranges_curve_falls_back_witness :
    buildCurveProfileFromRanges (Config.temperatureRanges ⟨5, [], true⟩) = none ∧
    monitoringPolicy ⟨5, [], true⟩ = RunPolicy.step :=
  empty_ranges_curve_falls_back ⟨5, [], true⟩ rfl rfl

/-- C6 counterexample: a device already in AUTO with an unchanged
temperature receives the identical AUTO-policy hardware write on every
tick — the write is re-issued even though the mode already matches. -/
theorem curve_auto_reissues_policy_write :
    (curveTick specExampleProfile ⟨true, 20, [30], 20⟩ 20).2 =
      [HWWrite.policyAuto 0] ∧
    (curveTick specExampleProfile
        ((curveTick specExampleProfile ⟨true, 20, [30], 20⟩ 20).1) 20).2 =
      [HWWrite.policyAuto 0] := by
  decide

/-- C6 amended: in step mode and in curve MANUAL mode a tick issues no
policy or speed write when the computed target equals the previous speed
for every fan; in curve AUTO mode no speed or manual-policy write is ever
issued, but the automatic-policy write is re-issued for every fan on every
tick. -/
theorem tick_no_redundant_writes :
    (∀ (ranges : List TemperatureRange) (st : DeviceState) (temp : Int),
       (∀ s ∈ st.fanSpeeds, getFanSpeedForTemperature temp st.prevTemp s ranges = s) →
       (stepTick ranges st temp).2 = []) ∧
    (∀ (prof : curveProfile) (st : DeviceState) (temp : Int),
       modeStep st.inAuto temp prof.floorEndTemp prof.floorHyst = false →
       (∀ s ∈ st.fanSpeeds, (curveSpeedForTempWithProfile temp prof).1 = s) →
       (curveTick prof st temp).2 = []) ∧
    (∀ (prof : curveProfile) (st : DeviceState) (temp : Int),
       modeStep st.inAuto temp prof.floorEndTemp prof.floorHyst = true →
       (curveTick prof st temp).2 =
         (List.range st.fanSpeeds.length).map HWWrite.policyAuto ∧
       ∀ w ∈ (curveTick prof st temp).2, ∃ i, w = HWWrite.policyAuto i) := by
  refine ⟨?_, ?_, ?_⟩
  · intro ranges st temp h
    simp [stepTick, stepFans_no_change ranges temp st.prevTemp 0 st.fanSpeeds h]
  · intro prof st temp hmode h
    simp [curveTick, hmode,
      curveManualFans_no_change prof temp st.lastChangeTemp 0 st.fanSpeeds h]
  · intro prof st temp hmode
    constructor
    · simp [curveTick, hmode]
    · intro w hw
      simp only [curveTick, hmode, if_true] at hw
      rcases List.mem_map.mp hw with ⟨i, _, hi⟩
      exact ⟨i, hi.symm⟩

theorem tick_no_redundant_writes_witness :
    (stepTick specExampleRanges ⟨false, 50, [40], 50⟩ 50).2 = [] ∧
    (curveTick specExampleProfile ⟨false, 50, [55], 50⟩ 50).2 = [] ∧
    (∃ i, HWWrite.policyAuto 0 = HWWrite.policyAuto i) :=
  ⟨tick_no_redundant_writes.1 specExampleRanges ⟨false, 50, [40], 50⟩ 50 (by decide),
   (tick_no_redundant_writes.2.1 specExampleProfile ⟨false, 50, [55], 50⟩ 50
     (by decide) (by decide)),
   (tick_no_redundant_writes.2.2 specExampleProfile ⟨true, 20, [30], 20⟩ 20
     (by decide)).2 (HWWrite.policyAuto 0) (by decide)⟩

theorem clampInt_bounds (x : Int) :
    0 ≤ clampInt x 0 100 ∧ clampInt x 0 100 ≤ 100 := by
  constructor <;> (unfold clampInt; split_ifs <;> omega)

/-- C2: `buildCurveProfileFromRanges` computes exactly the spec 4.3
construction — stable-sort by `(minTemp, maxTemp)`, floor from the first
sorted range, setpoints from the rest, stable-sort by temp, dedup equal
temps keeping the last occurrence — and on the spec section 8 ranges it
yields floor `(40, 30, 3)` and setpoints
`[(40,40,3), (60,70,3), (80,100,3), (100,100,0)]`. -/
theorem build_profile_matches_spec :
    (∀ ranges : List TemperatureRange,
       buildCurveProfileFromRanges ranges = specBuildCurveProfile ranges) ∧
    buildCurveProfileFromRanges specExampleRanges =
      some ⟨40, 30, 3, [⟨40, 40, 3⟩, ⟨60, 70, 3⟩, ⟨80, 100, 3⟩, ⟨100, 100, 0⟩]⟩ := by
  refine ⟨?_, by decide⟩
  intro ranges
  unfold buildCurveProfileFromRanges specBuildCurveProfile
  by_cases he : ranges.isEmpty
  · have h0 : ranges = [] := by simpa using he
    subst h0
    rfl
  · rw [if_neg he]
    cases hs : List.insertionSort rangeLe ranges with
    | nil =>
      exfalso
      have hlen := (List.perm_insertionSort rangeLe ranges).length_eq
      rw [hs] at hlen
      have h0 : ranges = [] := List.length_eq_zero.mp hlen.symm
      simp [h0] at he
    | cons floor rest =>
      simp only [goDedup_eq_dedupKeepLast]

/-- C1: on every profile whose setpoint temps are strictly increasing (the
CurveProfile invariant; every built profile satisfies it),
`curveSpeedForTempWithProfile` agrees with the four priority rules of
spec 4.4 everywhere; and on the profile built from the spec section 8
ranges, `speedAt(50) = 55`, `speedAt(39) = 30`, `speedAt(150) = 100`. -/
theorem curve_lookup_follows_spec (prof : curveProfile)
    (hs : tempsStrictMono prof.points = true) :
    (∀ temp : Int, curveSpeedForTempWithProfile temp prof = speedAtSpec temp prof) ∧
    curveSpeedForTempWithProfile 50 specExampleProfile = (55, 3) ∧
    curveSpeedForTempWithProfile 39 specExampleProfile = (30, 3) ∧
    curveSpeedForTempWithProfile 150 specExampleProfile = (100, 0) := by
  refine ⟨?_, by decide, by decide, by decide⟩
  intro temp
  unfold curveSpeedForTempWithProfile speedAtSpec
  by_cases h1 : temp < prof.floorEndTemp
  · rw [if_pos h1, if_pos h1]
  · rw [if_neg h1, if_neg h1]
    cases hp : prof.points with
    | nil => rfl
    | cons first rest =>
      rw [hp] at hs
      dsimp only
      by_cases h2 : temp < first.temp
      · rw [if_pos h2, if_pos h2]
      · rw [if_neg h2, if_neg h2]
        by_cases h3 : ((first :: rest).getLast (List.cons_ne_nil first rest)).temp ≤ temp
        · rw [if_pos h3, if_pos h3]
        · rw [if_neg h3, if_neg h3]
          cases hseg : findSegment temp (first :: rest) with
          | none =>
            exfalso
            have hsome := findSegment_exists temp rest first hs (by omega) (by omega)
            rw [hseg] at hsome
            simp at hsome
          | some ab =>
            dsimp only
            have hmem := List.mem_of_find?_eq_some hseg
            have hlt := adjPairs_strict hs hmem
            unfold interpSegment
            rw [if_neg (by omega)]

theorem curve_lookup_follows_spec_witness :
    curveSpeedForTempWithProfile 50 specExampleProfile =
      speedAtSpec 50 specExampleProfile ∧
    curveSpeedForTempWithProfile 39 specExampleProfile = (30, 3) :=
  ⟨(curve_lookup_follows_spec specExampleProfile (by decide)).1 50,
   (curve_lookup_follows_spec specExampleProfile (by decide)).2.2.1⟩

/-- C9: every speed `curveSpeedForTempWithProfile` returns on a profile
produced by `buildCurveProfileFromRanges` lies in `[0,100]`, whatever the
configured `fan_speed` values were: the floor speed, every setpoint speed
and every interpolated value are clamped. -/
theorem curve_speed_within_bounds (ranges : List TemperatureRange)
    (prof : curveProfile) (hb : buildCurveProfileFromRanges ranges = some prof)
    (temp : Int) :
    0 ≤ (curveSpeedForTempWithProfile temp prof).1 ∧
    (curveSpeedForTempWithProfile temp prof).1 ≤ 100 := by
  have hfloor : 0 ≤ prof.floorSpeed ∧ prof.floorSpeed ≤ 100 := by
    obtain ⟨floor, rest, -, hprof⟩ := build_profile_case hb
    rw [hprof]
    exact clampInt_bounds floor.fanSpeed
  have hpts := build_points_speed_mem hb
  unfold curveSpeedForTempWithProfile
  by_cases h1 : temp < prof.floorEndTemp
  · rw [if_pos h1]; exact hfloor
  · rw [if_neg h1]
    cases hp : prof.points with
    | nil => exact hfloor
    | cons first rest =>
      dsimp only
      have hlastmem :
          (first :: rest).getLast (List.cons_ne_nil first rest) ∈ prof.points := by
        rw [hp]; exact List.getLast_mem _
      by_cases h2 : temp < first.temp
      · rw [if_pos h2]; exact hfloor
      · rw [if_neg h2]
        by_cases h3 : ((first :: rest).getLast (List.cons_ne_nil first rest)).temp ≤ temp
        · rw [if_pos h3]
          exact hpts _ hlastmem
        · rw [if_neg h3]
          cases hseg : findSegment temp (first :: rest) with
          | none => exact hpts _ hlastmem
          | some ab =>
            dsimp only
            have hmem := List.mem_of_find?_eq_some hseg
            have habmem : ab.1 ∈ prof.points := by
              rw [hp]; exact (adjPairs_fst_snd_mem hmem).1
            unfold interpSegment
            by_cases hden : ab.2.temp - ab.1.temp ≤ 0
            · rw [if_pos hden]
              exact hpts _ habmem
            · rw [if_neg hden]
              exact clampInt_bounds _

theorem curve_speed_within_bounds_witness :
    0 ≤ (curveSpeedForTempWithProfile 50 specExampleProfile).1 ∧
    (curveSpeedForTempWithProfile 50 specExampleProfile).1 ≤ 100 :=
  curve_speed_within_bounds specExampleRanges specExampleProfile (by decide) 50

/-- C10: the setpoint temps of every built profile are strictly increasing
after dedup, so whenever the interpolation loop is reached
(`points` nonempty, `first.temp <= temp < last.temp`) the scan finds a
segment — the final fallback return is unreachable — and that segment has
`b.temp - a.temp > 0` — the `den <= 0` guard branch is unreachable. -/
theorem built_points_strictly_increasing (ranges : List TemperatureRange)
    (prof : curveProfile) (hb : buildCurveProfileFromRanges ranges = some prof) :
    tempsStrictMono prof.points = true ∧
    ∀ (temp : Int) (first lastPt : curvePoint),
      prof.points.head? = some first → prof.points.getLast? = some lastPt →
      first.temp ≤ temp → temp < lastPt.temp →
      ∃ ab, findSegment temp prof.points = some ab ∧ 0 < ab.2.temp - ab.1.temp := by
  have hstrict := build_points_strict hb
  refine ⟨hstrict, ?_⟩
  intro temp first lastPt hhead hlast hle hlt
  cases hp : prof.points with
  | nil => rw [hp] at hhead; exact absurd hhead (by simp)
  | cons f rest =>
    rw [hp] at hhead hlast hstrict
    have hf : f = first := by simpa using hhead
    subst hf
    have hlast' : (f :: rest).getLast (List.cons_ne_nil f rest) = lastPt := by
      have hgl := List.getLast?_eq_getLast (f :: rest) (List.cons_ne_nil f rest)
      rw [hgl] at hlast
      exact Option.some.inj hlast
    have hsome := findSegment_exists temp rest f hstrict hle (by rw [hlast']; exact hlt)
    obtain ⟨ab, hab⟩ := Option.isSome_iff_exists.mp hsome
    have hmem := List.mem_of_find?_eq_some hab
    have hden := adjPairs_strict hstrict hmem
    exact ⟨ab, hab, by omega⟩

theorem built_points_strictly_increasing_witness :
    tempsStrictMono specExampleProfile.points = true ∧
    (∃ ab, findSegment 50 specExampleProfile.points = some ab ∧
       0 < ab.2.temp - ab.1.temp) :=
  ⟨(built_points_strictly_increasing specExampleRanges specExampleProfile
      (by decide)).1,
   (built_points_strictly_increasing specExampleRanges specExampleProfile
      (by decide)).2 50 ⟨40, 40, 3⟩ ⟨100, 100, 0⟩ (by decide) (by decide)
      (by decide) (by decide)⟩

end NvidiaFanControl
